import Mathlib

/-!
Verification of the pyscanprev module (`pyscanprev.py`) against its
natural-language specification.

The development shallowly embeds the module's operations:

* the generic `scan` higher-order function (lines 171-187 of the source),
  embedded eagerly over `List`, with the `start=_EMPTY` sentinel embedded as
  `Option` and the failure of `next(it)` on an exhausted iterator embedded as
  an `Except` error (the spec's error taxonomy names this failure
  `EmptySequence`);
* the bytecode rewrite engine (`_enable_scan_single_bytecode`,
  `_enable_scan`, `enable_scan`, lines 42-145), embedded over an explicit
  instruction model mirroring the `bytecode` library's `Bytecode` view: a
  list of entries that are either `Label` placeholders or `Instr` records
  with an operation name and an operand.
-/

namespace PyScanPrev

/-- Error raised by `scan` when `start` is unset and the iterable yields
nothing: in the source, `start = next(it)` (line 181) raises on an empty
iterator; the spec's error taxonomy calls this failure `EmptySequence`. -/
inductive ScanError where
  | emptySequence
  deriving DecidableEq

/-- The accumulation loop of `scan` (lines 184-186): starting from the
current accumulator `s`, each item produces `f s item`, which is both
yielded and carried as the next accumulator. -/
def scanLoop (f : α → α → α) : α → List α → List α
  | _, [] => []
  | s, x :: xs => f s x :: scanLoop f (f s x) xs

/-- The `scan` higher-order function (lines 171-187), embedded eagerly:
`start = Option.none` plays the role of the `_EMPTY` sentinel (start unset).
If `start` is unset it is taken as the iterable's first element, failing with
`ScanError.emptySequence` when there is none; the start value is yielded
when `echoStart` is true; each later item `x` yields `f acc x`. -/
def scan (f : α → α → α) (xs : List α) (start : Option α) (echoStart : Bool) :
    Except ScanError (List α) :=
  match start, xs with
  | some s, _ => .ok ((if echoStart then [s] else []) ++ scanLoop f s xs)
  | Option.none, [] => .error .emptySequence
  | Option.none, x :: rest => .ok ((if echoStart then [x] else []) ++ scanLoop f x rest)

/-! ## Instruction model

Mirrors the `bytecode` library's `Bytecode` view used by
`_enable_scan_single_bytecode`: an ordered list of entries, each either a
`Label` placeholder (a jump target, compared by identity, here by id) or an
`Instr` with an operation name and an operand.  Operands are either absent,
a name (variable/attribute identifiers), a small integer (e.g. the depth
operand of `LIST_APPEND`), or a reference to a label. -/

/-- An instruction operand, as stored in the `arg` field of the `bytecode`
library's `Instr`. -/
inductive Arg where
  | noArg
  | name (s : String)
  | num (n : Int)
  | label (l : Nat)
  deriving DecidableEq

/-- An entry of a `Bytecode` object: a label placeholder or an instruction. -/
inductive Entry where
  | label (l : Nat)
  | instr (op : String) (arg : Arg)
  deriving DecidableEq

/-- `isinstance(instr, Instr)`. -/
def isInstrE : Entry → Bool
  | .instr _ _ => true
  | .label _ => false

/-- `getattr(instr, "name", None)`: labels have no `name` attribute. -/
def entryName : Entry → Option String
  | .instr op _ => some op
  | .label _ => Option.none

/-- The `arg` attribute of an instruction (labels carry none; the locator
only reads `arg` after an `isinstance(instr, Instr)` check). -/
def argOf : Entry → Arg
  | .instr _ a => a
  | .label _ => Arg.noArg

/-- The conditional-jump operation names recognised by the `bytecode`
library's `Instr.is_cond_jump()` on CPython 3.4/3.5 opcodes. -/
def condJumpNames : List String :=
  ["FOR_ITER", "JUMP_IF_FALSE_OR_POP", "JUMP_IF_TRUE_OR_POP",
   "POP_JUMP_IF_FALSE", "POP_JUMP_IF_TRUE"]

/-- `instr.is_cond_jump()` (labels are not instructions). -/
def isCondJumpE (e : Entry) : Bool :=
  match e with
  | .instr op _ => decide (op ∈ condJumpNames)
  | .label _ => false

/-- Python `==` between an instruction operand and an `int` (the comparison
`instr.arg == begin_label_idx` on line 66 of the source): an `int` operand
compares numerically; a `Label`, name or absent operand is never equal to an
`int` (`Label` has no numeric equality; Python returns `False`). -/
def pyEqArgInt : Arg → Int → Bool
  | .num n, k => n == k
  | _, _ => false

/-- Python `==` between an instruction operand and a `str` (the comparison
`instr.arg == name` on line 53 of the source). -/
def pyEqArgStr : Arg → String → Bool
  | .name s, t => s == t
  | _, _ => false

/-- Operation names whose operand lives in a code object's `co_names` table
(CPython 3.4/3.5): global/module-level name accesses, attribute accesses and
imports.  A code object's `co_names` is exactly the set of these operands. -/
def nameTableOps : List String :=
  ["LOAD_GLOBAL", "STORE_GLOBAL", "DELETE_GLOBAL", "LOAD_NAME", "STORE_NAME",
   "DELETE_NAME", "LOAD_ATTR", "STORE_ATTR", "DELETE_ATTR", "IMPORT_NAME",
   "IMPORT_FROM"]

/-- The operand of an entry when it is an instruction whose operation stores
its operand in `co_names`; `Option.none` otherwise. -/
def nameArgOf : Entry → Option String
  | .instr op (.name s) => if op ∈ nameTableOps then some s else Option.none
  | _ => Option.none

/-- The `co_names` referenced-name pool of a code object, recomputed from its
instruction stream exactly as CPython's compiler (and the `bytecode`
library's `to_code`, line 95) derive it: the operands of the name-table
operations, in order of appearance. -/
def namesOf (bc : List Entry) : List String :=
  bc.filterMap nameArgOf

/-- Index of the first entry satisfying `p` (the `next(idx for idx, instr in
enumerate(bc) if ...)` idiom of lines 58-59, returning `Option.none` where
Python raises `StopIteration`). -/
def firstIdxWhere (p : α → Bool) : List α → Option Nat
  | [] => Option.none
  | x :: xs => if p x then some 0 else (firstIdxWhere p xs).map (· + 1)

/-- Index of the last entry satisfying `p` (the `last(idx for idx, instr in
enumerate(bc) if ...)` idiom of lines 63-66, and the reversed-enumeration
search of lines 87-89, returning `Option.none` where Python raises
`StopIteration`). -/
def lastIdxWhere (p : α → Bool) : List α → Option Nat
  | [] => Option.none
  | x :: xs =>
    match lastIdxWhere p xs with
    | some j => some (j + 1)
    | Option.none => if p x then some 0 else Option.none

/-- Clamp a Python list index used as a slice boundary: negative indices
count from the end and are clamped to `0`; nonnegative ones are clamped to
the length. -/
def pyIdx (n : Nat) (i : Int) : Nat :=
  if i < 0 then ((n : Int) + i).toNat else min i.toNat n

/-- Python slice assignment `l[i:i] = xs`: insert `xs` at boundary `i`
(with Python's negative-index semantics). -/
def pyInsert (l : List α) (i : Int) (xs : List α) : List α :=
  l.take (pyIdx l.length i) ++ xs ++ l.drop (pyIdx l.length i)

/-- Errors of the rewrite engine.  `malformedBody` is the failure of the
locator when no `FOR_ITER` instruction exists (the `StopIteration` escaping
from line 58, named `MalformedBody` by the spec's error taxonomy);
`unknownKind` models the `KeyError` of the dict lookup on line 79 for a unit
that is not a list/set comprehension or generator expression (unreachable
through `_enable_scan`, which guards on the unit's name); `noEmission`
models the `StopIteration` of the ending search on line 87 when no
append/add/yield instruction exists (unreachable, since the freshly inserted
prologue always contains one). -/
inductive RewriteError where
  | malformedBody
  | unknownKind
  | noEmission
  deriving DecidableEq

instance [DecidableEq e] [DecidableEq a] : DecidableEq (Except e a)
  | .ok x, .ok y =>
    if h : x = y then isTrue (by rw [h]) else isFalse (fun he => h (by injection he))
  | .ok _, .error _ => isFalse (fun he => Except.noConfusion he)
  | .error _, .ok _ => isFalse (fun he => Except.noConfusion he)
  | .error x, .error y =>
    if h : x = y then isTrue (by rw [h]) else isFalse (fun he => h (by injection he))

/-- Lines 50-54: rewrite every `LOAD_GLOBAL` of the sentinel name into a
`LOAD_FAST` of the same name (`instr.set("LOAD_FAST", name)`). -/
def rewriteLoads (nm : String) (bc : List Entry) : List Entry :=
  bc.map fun e =>
    match e with
    | .instr op a =>
      if op == "LOAD_GLOBAL" && pyEqArgStr a nm then .instr "LOAD_FAST" a
      else .instr op a
    | .label l => .label l

/-- The loop/filter locator, lines 58-68: the index of the first `FOR_ITER`
instruction (failing with `malformedBody` when there is none), the integer
`begin_label_idx = for_idx - 1`, and `filter_last_idx` — the index of the
last conditional-jump instruction whose operand compares `==`-equal to the
integer `begin_label_idx`, defaulting to `for_idx` when the search raises
`StopIteration`. -/
def locate (bc : List Entry) : Except RewriteError (Nat × Int × Nat) :=
  match firstIdxWhere (fun e => entryName e == some "FOR_ITER") bc with
  | Option.none => .error .malformedBody
  | some forIdx =>
    let beginLabelIdx : Int := (forIdx : Int) - 1
    let filterLastIdx : Nat :=
      match lastIdxWhere
          (fun e => isInstrE e && isCondJumpE e && pyEqArgInt (argOf e) beginLabelIdx)
          bc with
      | some j => j
      | Option.none => forIdx
    .ok (forIdx, beginLabelIdx, filterLastIdx)

/-- Lines 73-79: the construct's native emission instructions, keyed by the
code unit's name — append for a list comprehension, add for a set
comprehension, yield-then-discard for a generator expression.
`Option.none` models the `KeyError` for any other unit name. -/
def emissionFor (coName : String) : Option (List Entry) :=
  if coName = "<listcomp>" then some [.instr "LIST_APPEND" (.num 2)]
  else if coName = "<setcomp>" then some [.instr "SET_ADD" (.num 2)]
  else if coName = "<genexpr>" then
    some [.instr "YIELD_VALUE" Arg.noArg, .instr "POP_TOP" Arg.noArg]
  else Option.none

/-- The emission operation names searched by the ending block, line 86. -/
def loopInstructionNames : List String := ["SET_ADD", "LIST_APPEND", "YIELD_VALUE"]

/-- Predicate of the reversed-enumeration search of lines 87-89: an
instruction whose operation is one of the emission operations. -/
def isEmissionE (e : Entry) : Bool :=
  isInstrE e && decide (entryName e = some "SET_ADD" ∨
    entryName e = some "LIST_APPEND" ∨ entryName e = some "YIELD_VALUE")

/-- `_enable_scan_single_bytecode` (lines 42-95) at the instruction level.
`from_code` yields the entry list; `to_code` (line 95) reassembles a code
object with the same unit name and constant pool and with `co_names`
recomputed from the instructions (see `namesOf`), so the function is stated
here as a transformation of the entry list:

1. rewrite `LOAD_GLOBAL name` to `LOAD_FAST name` (lines 50-54);
2. locate the first `FOR_ITER`, the integer `begin_label_idx` and
   `filter_last_idx` (lines 58-68);
3. insert, at `begin_label_idx`, a copy of the entries
   `bc[for_idx : filter_last_idx + 1]` followed by `DUP_TOP`,
   `STORE_FAST name` and the construct's emission instructions
   (lines 73-83);
4. insert `DUP_TOP`, `STORE_FAST name` at the position of the last
   emission instruction of the spliced stream — Python's negative index
   `-idx` from the reversed enumeration denotes exactly that position, so
   the pair lands immediately before that instruction (lines 86-93). -/
def enableScanSingleInstrs (coName nm : String) (instrs : List Entry) :
    Except RewriteError (List Entry) :=
  let bc1 := rewriteLoads nm instrs
  match locate bc1 with
  | .error e => .error e
  | .ok (forIdx, beginLabelIdx, filterLastIdx) =>
    match emissionFor coName with
    | Option.none => .error .unknownKind
    | some em =>
      let heading := Entry.instr "DUP_TOP" Arg.noArg ::
        Entry.instr "STORE_FAST" (Arg.name nm) :: em
      let seg := (bc1.take (filterLastIdx + 1)).drop forIdx
      let bc2 := pyInsert bc1 beginLabelIdx (seg ++ heading)
      match lastIdxWhere isEmissionE bc2 with
      | Option.none => .error .noEmission
      | some j =>
        .ok (bc2.take j ++
          [Entry.instr "DUP_TOP" Arg.noArg, Entry.instr "STORE_FAST" (Arg.name nm)] ++
          bc2.drop j)

/-! ## Code unit model and recursive driver -/

mutual
/-- A code object: unit name (`co_name`), instruction stream, and constant
pool.  Its referenced-name pool `co_names` is derived from the instruction
stream by `namesOf` (as CPython's compiler and the `bytecode` library's
`to_code` both do). -/
inductive Code where
  | mk (coName : String) (instrs : List Entry) (consts : List Konst)

/-- A constant-pool entry: a literal value or a nested code object
(`isinstance(subcode, types.CodeType)`, line 110). -/
inductive Konst where
  | lit (v : Int)
  | code (c : Code)
end

/-- The unit names eligible for the rewrite (line 105). -/
def transformableKinds : List String := ["<listcomp>", "<setcomp>", "<genexpr>"]

mutual
/-- `_enable_scan` (lines 98-115): if the sentinel name is among the unit's
referenced names and the unit is a list/set comprehension or generator
expression, rewrite the unit's own instruction stream first (lines 104-106);
then recursively transform every nested code object in the constant pool
(lines 108-111); literals are left alone, and the unit is reassembled from
the (possibly unchanged) pieces. -/
def enableScanCode : Code → String → Except RewriteError Code
  | .mk coName instrs consts, nm =>
    match (if nm ∈ namesOf instrs ∧ coName ∈ transformableKinds
           then enableScanSingleInstrs coName nm instrs
           else .ok instrs) with
    | .error e => .error e
    | .ok instrs2 =>
      match enableScanKonsts consts nm with
      | .error e => .error e
      | .ok consts2 => .ok (.mk coName instrs2 consts2)

/-- The constant-pool loop of `_enable_scan` (lines 108-111). -/
def enableScanKonsts : List Konst → String → Except RewriteError (List Konst)
  | [], _ => .ok []
  | k :: ks, nm =>
    match enableScanKonst k nm with
    | .error e => .error e
    | .ok k2 =>
      match enableScanKonsts ks nm with
      | .error e => .error e
      | .ok ks2 => .ok (k2 :: ks2)

/-- One constant-pool entry: nested code objects are transformed
recursively, literals are kept (line 110's `isinstance` check). -/
def enableScanKonst : Konst → String → Except RewriteError Konst
  | .lit v, _ => .ok (.lit v)
  | .code c, nm =>
    match enableScanCode c nm with
    | .error e => .error e
    | .ok c2 => .ok (.code c2)
end

/-- A function object, as far as the transform observes it: `enable_scan`'s
decorator (lines 143-144) rebuilds the function with a transformed
`__code__` and everything else (globals, name, defaults, closure)
unchanged. -/
structure Func where
  code : Code

/-- The parametrized decorator `enable_scan(name)` applied to a function
(lines 118-145). -/
def enableScanFunc (nm : String) (f : Func) : Except RewriteError Func :=
  match enableScanCode f.code nm with
  | .error e => .error e
  | .ok c => .ok ⟨c⟩

mutual
/-- Whether the sentinel name is referenced (`co_names`) anywhere in a code
object's subtree, nested code units included. -/
def mentionsCode : Code → String → Bool
  | .mk _ instrs consts, nm => decide (nm ∈ namesOf instrs) || mentionsKonsts consts nm

/-- `mentionsCode` over a constant pool. -/
def mentionsKonsts : List Konst → String → Bool
  | [], _ => false
  | k :: ks, nm => mentionsKonst k nm || mentionsKonsts ks nm

/-- `mentionsCode` over one constant. -/
def mentionsKonst : Konst → String → Bool
  | .lit _, _ => false
  | .code c, nm => mentionsCode c nm
end

/-- Whether every name-table instruction whose operand is the sentinel name
is a `LOAD_GLOBAL` — i.e. the construct refers to the sentinel only as an
enclosing-scope load, never as e.g. an attribute name. -/
def onlyGlobalRefs (bc : List Entry) (nm : String) : Bool :=
  bc.all fun e =>
    match e with
    | .instr op (.name s) =>
      if s == nm && decide (op ∈ nameTableOps) then op == "LOAD_GLOBAL" else true
    | _ => true

/-- Whether a constant-pool entry is a literal (not a nested code unit). -/
def isLitKonst : Konst → Bool
  | .lit _ => true
  | .code _ => false

mutual
/-- The order in which `_enable_scan` (lines 98-115) invokes
`_enable_scan_single_bytecode` across the recursion: the current unit's
name is recorded first when its guard (line 104-105) holds, and the
constant pool is walked afterwards, left to right.  This instruments the
driver's control flow without changing it. -/
def traceCode : Code → String → List String
  | .mk coName instrs consts, nm =>
    (if nm ∈ namesOf instrs ∧ coName ∈ transformableKinds then [coName] else []) ++
      traceKonsts consts nm

/-- `traceCode` over a constant pool. -/
def traceKonsts : List Konst → String → List String
  | [], _ => []
  | k :: ks, nm => traceKonst k nm ++ traceKonsts ks nm

/-- `traceCode` over one constant. -/
def traceKonst : Konst → String → List String
  | .lit _, _ => []
  | .code c, nm => traceCode c nm
end

mutual
/-- The bottom-up driver the specification describes for 4.4: every nested
code unit in the constant pool is transformed first, and only then is the
current unit's own instruction stream rewritten (when its guard holds).
Stated for comparison with `enableScanCode`, which mirrors the source's
actual top-down order. -/
def enableScanCodeBU : Code → String → Except RewriteError Code
  | .mk coName instrs consts, nm =>
    match enableScanKonstsBU consts nm with
    | .error e => .error e
    | .ok consts2 =>
      match (if nm ∈ namesOf instrs ∧ coName ∈ transformableKinds
             then enableScanSingleInstrs coName nm instrs
             else .ok instrs) with
      | .error e => .error e
      | .ok instrs2 => .ok (.mk coName instrs2 consts2)

/-- `enableScanCodeBU` over a constant pool. -/
def enableScanKonstsBU : List Konst → String → Except RewriteError (List Konst)
  | [], _ => .ok []
  | k :: ks, nm =>
    match enableScanKonstBU k nm with
    | .error e => .error e
    | .ok k2 =>
      match enableScanKonstsBU ks nm with
      | .error e => .error e
      | .ok ks2 => .ok (k2 :: ks2)

/-- `enableScanCodeBU` over one constant. -/
def enableScanKonstBU : Konst → String → Except RewriteError Konst
  | .lit v, _ => .ok (.lit v)
  | .code c, nm =>
    match enableScanCodeBU c nm with
    | .error e => .error e
    | .ok c2 => .ok (.code c2)
end

/-! ## A small straight-line stack semantics

Used to state the semantic content of the prologue: the evaluation-stack and
local-variable effect of the inserted `DUP_TOP`, `STORE_FAST`, and emission
instructions, per CPython 3.4/3.5.  Emission is modelled by appending the
consumed value to an `emitted` list (CPython's `LIST_APPEND`/`SET_ADD`
instead mutate the container sitting deeper on the stack, and `YIELD_VALUE`
hands the value to the consumer and resumes with the sent value — `None`
under normal `next()` iteration, here the parameter `noneV`). -/

/-- Machine state for straight-line execution: evaluation stack, local
variable bindings (most recent first), and the values emitted so far. -/
structure MiniState (V : Type) where
  stack : List V
  locals : List (String × V)
  emitted : List V
  deriving DecidableEq

/-- Straight-line execution of the instruction subset appearing in the
spliced prologue and epilogue blocks; labels are position markers and do
nothing; any other instruction or a stack underflow stops execution. -/
def runStraight (noneV : V) : List Entry → MiniState V → Option (MiniState V)
  | [], st => some st
  | Entry.label _ :: rest, st => runStraight noneV rest st
  | Entry.instr op a :: rest, st =>
    if op == "DUP_TOP" then
      match st.stack with
      | v :: tl => runStraight noneV rest ⟨v :: v :: tl, st.locals, st.emitted⟩
      | [] => Option.none
    else if op == "STORE_FAST" then
      match a, st.stack with
      | Arg.name s, v :: tl => runStraight noneV rest ⟨tl, (s, v) :: st.locals, st.emitted⟩
      | _, _ => Option.none
    else if op == "LIST_APPEND" || op == "SET_ADD" then
      match st.stack with
      | v :: tl => runStraight noneV rest ⟨tl, st.locals, st.emitted ++ [v]⟩
      | [] => Option.none
    else if op == "YIELD_VALUE" then
      match st.stack with
      | v :: tl => runStraight noneV rest ⟨noneV :: tl, st.locals, st.emitted ++ [v]⟩
      | [] => Option.none
    else if op == "POP_TOP" then
      match st.stack with
      | _ :: tl => runStraight noneV rest ⟨tl, st.locals, st.emitted⟩
      | [] => Option.none
    else Option.none

/-- Every instruction the splice transform can insert (prologue heading and
epilogue, over all three construct kinds): none of them is a name-table
operation, so splicing never adds a name to `co_names`. -/
def spliceEntries (nm : String) : List Entry :=
  [.instr "DUP_TOP" Arg.noArg, .instr "STORE_FAST" (.name nm),
   .instr "LIST_APPEND" (.num 2), .instr "SET_ADD" (.num 2),
   .instr "YIELD_VALUE" Arg.noArg, .instr "POP_TOP" Arg.noArg]

/-! ## Concrete instruction streams used as witnesses and counterexamples

They follow the CPython 3.4/3.5 compilation scheme for comprehension /
generator-expression bodies: the iterator argument is the implicit local
`.0`, a label immediately precedes the main `FOR_ITER`, the loop body ends
with the emission instruction and an absolute jump back to that label. -/

/-- A unit claimed to be a comprehension body but containing no `FOR_ITER`. -/
def exC3 : List Entry := [.instr "LOAD_GLOBAL" (.name "p")]

/-- A minimal iterating unit: loop-start label, fetch-next, emission. -/
def exC4 : List Entry :=
  [.label 0, .instr "FOR_ITER" (.label 1), .instr "LIST_APPEND" (.num 2)]

/-- What `_enable_scan_single_bytecode` produces on `exC4`: the prologue
(`FOR_ITER` copy, `DUP_TOP`, `STORE_FAST p`, `LIST_APPEND 2`) sits before
the loop-start label; the epilogue pair sits before the loop's final
`LIST_APPEND`. -/
def exC4out : List Entry :=
  [.instr "FOR_ITER" (.label 1),
   .instr "DUP_TOP" Arg.noArg,
   .instr "STORE_FAST" (.name "p"),
   .instr "LIST_APPEND" (.num 2),
   .label 0,
   .instr "FOR_ITER" (.label 1),
   .instr "DUP_TOP" Arg.noArg,
   .instr "STORE_FAST" (.name "p"),
   .instr "LIST_APPEND" (.num 2)]

/-- The compiled body of `[p + x for x in iterable]`, sentinel `p`. -/
def exC5 : List Entry :=
  [.instr "BUILD_LIST" (.num 0),
   .instr "LOAD_FAST" (.name ".0"),
   .label 0,
   .instr "FOR_ITER" (.label 1),
   .instr "STORE_FAST" (.name "x"),
   .instr "LOAD_GLOBAL" (.name "p"),
   .instr "LOAD_FAST" (.name "x"),
   .instr "BINARY_ADD" Arg.noArg,
   .instr "LIST_APPEND" (.num 2),
   .instr "JUMP_ABSOLUTE" (.label 0),
   .label 1,
   .instr "RETURN_VALUE" Arg.noArg]

/-- What `_enable_scan_single_bytecode` produces on `exC5`: the epilogue
pair sits at indices 12-13, immediately BEFORE the loop's `LIST_APPEND`. -/
def exC5out : List Entry :=
  [.instr "BUILD_LIST" (.num 0),
   .instr "LOAD_FAST" (.name ".0"),
   .instr "FOR_ITER" (.label 1),
   .instr "DUP_TOP" Arg.noArg,
   .instr "STORE_FAST" (.name "p"),
   .instr "LIST_APPEND" (.num 2),
   .label 0,
   .instr "FOR_ITER" (.label 1),
   .instr "STORE_FAST" (.name "x"),
   .instr "LOAD_FAST" (.name "p"),
   .instr "LOAD_FAST" (.name "x"),
   .instr "BINARY_ADD" Arg.noArg,
   .instr "DUP_TOP" Arg.noArg,
   .instr "STORE_FAST" (.name "p"),
   .instr "LIST_APPEND" (.num 2),
   .instr "JUMP_ABSOLUTE" (.label 0),
   .label 1,
   .instr "RETURN_VALUE" Arg.noArg]

/-- The stream claim C5 prescribes instead: identical except that the
epilogue pair follows the loop's `LIST_APPEND` ("inserted immediately after
the per-iteration emission instruction"). -/
def exC5claimOut : List Entry :=
  [.instr "BUILD_LIST" (.num 0),
   .instr "LOAD_FAST" (.name ".0"),
   .instr "FOR_ITER" (.label 1),
   .instr "DUP_TOP" Arg.noArg,
   .instr "STORE_FAST" (.name "p"),
   .instr "LIST_APPEND" (.num 2),
   .label 0,
   .instr "FOR_ITER" (.label 1),
   .instr "STORE_FAST" (.name "x"),
   .instr "LOAD_FAST" (.name "p"),
   .instr "LOAD_FAST" (.name "x"),
   .instr "BINARY_ADD" Arg.noArg,
   .instr "LIST_APPEND" (.num 2),
   .instr "DUP_TOP" Arg.noArg,
   .instr "STORE_FAST" (.name "p"),
   .instr "JUMP_ABSOLUTE" (.label 0),
   .label 1,
   .instr "RETURN_VALUE" Arg.noArg]

/-- The compiled body of `[x for x in iterable if x]`: a filter whose
conditional jump (index 6) targets the loop-start label (id 0, sitting at
index 2). -/
def exC6 : List Entry :=
  [.instr "BUILD_LIST" (.num 0),
   .instr "LOAD_FAST" (.name ".0"),
   .label 0,
   .instr "FOR_ITER" (.label 1),
   .instr "STORE_FAST" (.name "x"),
   .instr "LOAD_FAST" (.name "x"),
   .instr "POP_JUMP_IF_FALSE" (.label 0),
   .instr "LOAD_FAST" (.name "x"),
   .instr "LIST_APPEND" (.num 2),
   .instr "JUMP_ABSOLUTE" (.label 0),
   .label 1,
   .instr "RETURN_VALUE" Arg.noArg]

/-- A function whose body (with a nested comprehension and a literal in the
constant pool) never references the sentinel `p`. -/
def exC7func : Func :=
  ⟨.mk "f"
    [.instr "LOAD_GLOBAL" (.name "q"), .instr "RETURN_VALUE" Arg.noArg]
    [.lit 0,
     .code (.mk "<listcomp>"
       [.instr "BUILD_LIST" (.num 0),
        .instr "LOAD_FAST" (.name ".0"),
        .label 0,
        .instr "FOR_ITER" (.label 1),
        .instr "STORE_FAST" (.name "x"),
        .instr "LOAD_FAST" (.name "x"),
        .instr "LIST_APPEND" (.num 2),
        .instr "JUMP_ABSOLUTE" (.label 0),
        .label 1,
        .instr "RETURN_VALUE" Arg.noArg] [])]⟩

/-- The compiled body of `[x.p for x in iterable]`: the sentinel `p` occurs
as an attribute name (`LOAD_ATTR p`), so it is in `co_names` without being
an enclosing-scope load. -/
def exC8 : List Entry :=
  [.instr "BUILD_LIST" (.num 0),
   .instr "LOAD_FAST" (.name ".0"),
   .label 0,
   .instr "FOR_ITER" (.label 1),
   .instr "STORE_FAST" (.name "x"),
   .instr "LOAD_FAST" (.name "x"),
   .instr "LOAD_ATTR" (.name "p"),
   .instr "LIST_APPEND" (.num 2),
   .instr "JUMP_ABSOLUTE" (.label 0),
   .label 1,
   .instr "RETURN_VALUE" Arg.noArg]

/-- What the first transformation pass produces on `exC8`: the rewritten
construct still carries `LOAD_ATTR p`, so `p` is still in its `co_names`. -/
def exC8out : List Entry :=
  [.instr "BUILD_LIST" (.num 0),
   .instr "LOAD_FAST" (.name ".0"),
   .instr "FOR_ITER" (.label 1),
   .instr "DUP_TOP" Arg.noArg,
   .instr "STORE_FAST" (.name "p"),
   .instr "LIST_APPEND" (.num 2),
   .label 0,
   .instr "FOR_ITER" (.label 1),
   .instr "STORE_FAST" (.name "x"),
   .instr "LOAD_FAST" (.name "x"),
   .instr "LOAD_ATTR" (.name "p"),
   .instr "DUP_TOP" Arg.noArg,
   .instr "STORE_FAST" (.name "p"),
   .instr "LIST_APPEND" (.num 2),
   .instr "JUMP_ABSOLUTE" (.label 0),
   .label 1,
   .instr "RETURN_VALUE" Arg.noArg]

/-- A generator expression whose constant pool holds a nested list
comprehension; both reference the sentinel `q` and both are transformable. -/
def exC9code : Code :=
  .mk "<genexpr>"
    [.label 0,
     .instr "FOR_ITER" (.label 1),
     .instr "STORE_FAST" (.name "x"),
     .instr "LOAD_GLOBAL" (.name "q"),
     .instr "YIELD_VALUE" Arg.noArg,
     .instr "POP_TOP" Arg.noArg,
     .instr "JUMP_ABSOLUTE" (.label 0),
     .label 1,
     .instr "RETURN_VALUE" Arg.noArg]
    [.lit 0,
     .code (.mk "<listcomp>"
       [.instr "BUILD_LIST" (.num 0),
        .instr "LOAD_FAST" (.name ".0"),
        .label 0,
        .instr "FOR_ITER" (.label 1),
        .instr "STORE_FAST" (.name "y"),
        .instr "LOAD_GLOBAL" (.name "q"),
        .instr "LIST_APPEND" (.num 2),
        .instr "JUMP_ABSOLUTE" (.label 0),
        .label 1,
        .instr "RETURN_VALUE" Arg.noArg] [])]

/-! ## Theorems -/

theorem scanLoop_length (f : α → α → α) : ∀ (l : List α) (s : α),
    (scanLoop f s l).length = l.length
  | [], _ => rfl
  | _ :: l, s => by
    simp only [scanLoop, List.length_cons, scanLoop_length f l]

theorem scanLoop_getD (f : α → α → α) : ∀ (l : List α) (s : α) (j : Nat) (d : α),
    j < l.length →
    (scanLoop f s l).getD j d = f ((s :: scanLoop f s l).getD j d) (l.getD j d)
  | [], _, j, _, hj => absurd hj (by simp)
  | a :: l, s, 0, d, _ => by simp [scanLoop]
  | a :: l, s, j + 1, d, hj => by
    simp only [scanLoop, List.getD_cons_succ]
    exact scanLoop_getD f l (f s a) j d (by simpa using hj)

/-- C1: for every sequence `xs` of length ≥ 1 and every binary operation
`f`, `scan(f, xs)` with `start` unset and the default `echo_start = true`
produces a sequence of the same length whose first element is `xs[0]` and
whose k-th element (k ≥ 1) is `f` applied to the (k-1)-th output element
and `xs[k]`. -/
theorem claim_C1_scan_shape (f : α → α → α) (xs : List α) (h : xs ≠ []) :
    ∃ ys, scan f xs Option.none true = .ok ys ∧
      ys.length = xs.length ∧
      ys.head? = xs.head? ∧
      ∀ (k : Nat) (d : α), 1 ≤ k → k < xs.length →
        ys.getD k d = f (ys.getD (k - 1) d) (xs.getD k d) := by
  match xs, h with
  | x :: rest, _ =>
    refine ⟨x :: scanLoop f x rest, rfl, ?_, rfl, ?_⟩
    · simp [scanLoop_length]
    · intro k d hk hklt
      match k, hk with
      | j + 1, _ =>
        simp only [List.getD_cons_succ, Nat.add_sub_cancel]
        exact scanLoop_getD f rest x j d (by simpa using hklt)

theorem claim_C1_scan_shape_witness :
    ([1, 2, 3] : List Nat) ≠ [] ∧
    (∃ ys, scan Nat.add [1, 2, 3] Option.none true = .ok ys ∧
      ys.length = ([1, 2, 3] : List Nat).length ∧
      ys.head? = ([1, 2, 3] : List Nat).head? ∧
      ∀ (k : Nat) (d : Nat), 1 ≤ k → k < ([1, 2, 3] : List Nat).length →
        ys.getD k d = Nat.add (ys.getD (k - 1) d) (([1, 2, 3] : List Nat).getD k d)) :=
  ⟨by decide, claim_C1_scan_shape Nat.add [1, 2, 3] (by decide)⟩

/-- C2: `scan` with `start` unset on an iterable yielding no elements fails
with the `EmptySequence` error (the `StopIteration` escaping from
`start = next(it)` on line 181), surfaced directly to the caller. -/
theorem claim_C2_empty_fails (f : α → α → α) (echo : Bool) :
    scan f ([] : List α) Option.none echo = .error .emptySequence := rfl

/-- C10: `scan` over an empty iterable with an explicit start value yields
exactly `[start]` when `echo_start` is true and `[]` when it is false; and
whenever the iterable is exhausted once the start value is determined, the
operation `f` is never applied — the result does not depend on it. -/
theorem claim_C10_start_only (f g : α → α → α) (s : α) (xs : List α)
    (st : Option α) (echo : Bool)
    (h : xs.drop (if st.isNone then 1 else 0) = []) :
    scan f ([] : List α) (some s) true = .ok [s] ∧
    scan f ([] : List α) (some s) false = .ok [] ∧
    scan f xs st echo = scan g xs st echo := by
  refine ⟨rfl, rfl, ?_⟩
  match st with
  | some s' =>
    have hx : xs = [] := by simpa using h
    subst hx; rfl
  | Option.none =>
    match xs with
    | [] => rfl
    | x :: rest =>
      have hr : rest = [] := by simpa using h
      subst hr; rfl

theorem claim_C10_start_only_witness :
    (([7] : List Nat).drop (if (Option.none : Option Nat).isNone then 1 else 0) = []) ∧
    (scan Nat.add ([] : List Nat) (some 5) true = .ok [5] ∧
     scan Nat.add ([] : List Nat) (some 5) false = .ok [] ∧
     scan Nat.add [7] (Option.none : Option Nat) true =
       scan Nat.mul [7] (Option.none : Option Nat) true) :=
  ⟨by decide, claim_C10_start_only Nat.add Nat.mul 5 [7] Option.none true (by decide)⟩

/-! ### Helper lemmas about the search and splice primitives -/

theorem getD_mem_of_lt : ∀ (l : List α) (i : Nat) (d : α), i < l.length → l.getD i d ∈ l
  | [], i, _, h => absurd h (by simp)
  | x :: xs, 0, d, _ => by simp
  | x :: xs, i + 1, d, h => by
    rw [List.getD_cons_succ]
    exact List.mem_cons_of_mem x (getD_mem_of_lt xs i d (by simpa using h))

theorem firstIdxWhere_eq_none (p : α → Bool) :
    ∀ l : List α, (∀ x ∈ l, p x = false) → firstIdxWhere p l = Option.none
  | [], _ => rfl
  | x :: xs, h => by
    have hx : p x = false := h x (List.mem_cons_self x xs)
    have hrec := firstIdxWhere_eq_none p xs (fun y hy => h y (List.mem_cons_of_mem x hy))
    simp [firstIdxWhere, hx, hrec]

theorem firstIdxWhere_some_lt (p : α → Bool) :
    ∀ (l : List α) (i : Nat), firstIdxWhere p l = some i → i < l.length
  | [], _, h => by simp [firstIdxWhere] at h
  | x :: xs, i, h => by
    simp only [firstIdxWhere] at h
    by_cases hx : p x = true
    · rw [if_pos hx] at h
      simp only [Option.some.injEq] at h
      subst h
      simp
    · rw [if_neg hx] at h
      cases hrec : firstIdxWhere p xs with
      | none => rw [hrec] at h; simp at h
      | some i' =>
        rw [hrec] at h
        simp only [Option.map_some', Option.some.injEq] at h
        have := firstIdxWhere_some_lt p xs i' hrec
        simp only [List.length_cons]
        omega

theorem lastIdxWhere_eq_none (p : α → Bool) :
    ∀ l : List α, lastIdxWhere p l = Option.none → ∀ x ∈ l, p x = false
  | [], _, x, hx => absurd hx (List.not_mem_nil x)
  | y :: ys, h, x, hx => by
    simp only [lastIdxWhere] at h
    cases hrec : lastIdxWhere p ys with
    | some j => rw [hrec] at h; exact absurd h (by simp)
    | none =>
      rw [hrec] at h
      by_cases hy : p y = true
      · rw [if_pos hy] at h; exact absurd h (by simp)
      · rcases List.mem_cons.1 hx with rfl | hx'
        · simpa using hy
        · exact lastIdxWhere_eq_none p ys hrec x hx'

theorem lastIdxWhere_some_lt (p : α → Bool) :
    ∀ (l : List α) (j : Nat), lastIdxWhere p l = some j → j < l.length
  | [], _, h => by simp [lastIdxWhere] at h
  | x :: xs, j, h => by
    simp only [lastIdxWhere] at h
    cases hrec : lastIdxWhere p xs with
    | some j' =>
      rw [hrec] at h
      have := lastIdxWhere_some_lt p xs j' hrec
      simp only [Option.some.injEq] at h
      simp only [List.length_cons]
      omega
    | none =>
      rw [hrec] at h
      by_cases hx : p x = true
      · rw [if_pos hx] at h
        simp only [Option.some.injEq] at h
        simp only [List.length_cons]
        omega
      · rw [if_neg hx] at h; exact absurd h (by simp)

theorem lastIdxWhere_getD (p : α → Bool) :
    ∀ (l : List α) (j : Nat) (d : α), lastIdxWhere p l = some j → p (l.getD j d) = true
  | [], _, _, h => by simp [lastIdxWhere] at h
  | x :: xs, j, d, h => by
    simp only [lastIdxWhere] at h
    cases hrec : lastIdxWhere p xs with
    | some j' =>
      rw [hrec] at h
      simp only [Option.some.injEq] at h
      subst h
      simpa using lastIdxWhere_getD p xs j' d hrec
    | none =>
      rw [hrec] at h
      by_cases hx : p x = true
      · rw [if_pos hx] at h
        simp only [Option.some.injEq] at h
        subst h
        simpa using hx
      · rw [if_neg hx] at h; exact absurd h (by simp)

theorem lastIdxWhere_maximal (p : α → Bool) :
    ∀ (l : List α) (j : Nat), lastIdxWhere p l = some j →
      ∀ (i : Nat) (d : α), i < l.length → p (l.getD i d) = true → i ≤ j
  | [], _, h => by simp [lastIdxWhere] at h
  | x :: xs, j, h => by
    simp only [lastIdxWhere] at h
    intro i d hi hp
    cases hrec : lastIdxWhere p xs with
    | some j' =>
      rw [hrec] at h
      simp only [Option.some.injEq] at h
      subst h
      match i with
      | 0 => omega
      | i' + 1 =>
        have := lastIdxWhere_maximal p xs j' hrec i' d (by simpa using hi) (by simpa using hp)
        omega
    | none =>
      rw [hrec] at h
      by_cases hx : p x = true
      · rw [if_pos hx] at h
        simp only [Option.some.injEq] at h
        subst h
        match i with
        | 0 => omega
        | i' + 1 =>
          have hmem : xs.getD i' d ∈ xs :=
            getD_mem_of_lt xs i' d (by simpa using hi)
          have := lastIdxWhere_eq_none p xs hrec _ hmem
          rw [List.getD_cons_succ] at hp
          rw [this] at hp
          exact absurd hp (by simp)
      · rw [if_neg hx] at h; exact absurd h (by simp)

theorem pyInsert_of_nonneg (l : List α) (i : Int) (xs : List α)
    (h0 : 0 ≤ i) (hle : i.toNat ≤ l.length) :
    pyInsert l i xs = l.take i.toNat ++ xs ++ l.drop i.toNat := by
  unfold pyInsert pyIdx
  rw [if_neg (by omega), min_eq_left hle]

theorem rewriteLoads_no_forIter (nm : String) (l : List Entry)
    (h : ∀ e ∈ l, entryName e ≠ some "FOR_ITER") :
    ∀ e ∈ rewriteLoads nm l, entryName e ≠ some "FOR_ITER" := by
  intro e he
  rcases List.mem_map.1 he with ⟨e0, he0, rfl⟩
  cases e0 with
  | label l' => simp [entryName]
  | instr op a =>
    by_cases hc : (op == "LOAD_GLOBAL" && pyEqArgStr a nm) = true
    · simp only [hc, if_true]
      simp [entryName]
    · simp only [hc, if_false, Bool.false_eq_true]
      exact h _ he0

/-- C3: an instruction model of a claimed iterating construct with no
`FOR_ITER` makes the locator fail with `MalformedBody`, and that failure
propagates out of the single-unit rewrite, out of the recursive driver, and
out of the decorator — it is surfaced to the caller of `apply`. -/
theorem claim_C3_malformed_body (coName nm : String) (instrs : List Entry)
    (consts : List Konst)
    (hkind : coName ∈ transformableKinds)
    (hname : nm ∈ namesOf instrs)
    (hnofor : ∀ e ∈ instrs, entryName e ≠ some "FOR_ITER") :
    locate (rewriteLoads nm instrs) = .error .malformedBody ∧
    enableScanSingleInstrs coName nm instrs = .error .malformedBody ∧
    enableScanCode (.mk coName instrs consts) nm = .error .malformedBody ∧
    enableScanFunc nm ⟨.mk coName instrs consts⟩ = .error .malformedBody := by
  have hb := rewriteLoads_no_forIter nm instrs hnofor
  have hfi : firstIdxWhere (fun e => entryName e == some "FOR_ITER")
      (rewriteLoads nm instrs) = Option.none := by
    apply firstIdxWhere_eq_none
    intro x hx
    simpa using hb x hx
  have hloc : locate (rewriteLoads nm instrs) = .error .malformedBody := by
    unfold locate
    rw [hfi]
  have hsingle : enableScanSingleInstrs coName nm instrs = .error .malformedBody := by
    simp only [enableScanSingleInstrs]
    rw [hloc]
  have hcode : enableScanCode (.mk coName instrs consts) nm = .error .malformedBody := by
    simp only [enableScanCode]
    rw [if_pos ⟨hname, hkind⟩, hsingle]
  refine ⟨hloc, hsingle, hcode, ?_⟩
  unfold enableScanFunc
  rw [hcode]

theorem claim_C3_malformed_body_witness :
    ("<listcomp>" ∈ transformableKinds ∧ "p" ∈ namesOf exC3 ∧
      ∀ e ∈ exC3, entryName e ≠ some "FOR_ITER") ∧
    (locate (rewriteLoads "p" exC3) = .error .malformedBody ∧
     enableScanSingleInstrs "<listcomp>" "p" exC3 = .error .malformedBody ∧
     enableScanCode (.mk "<listcomp>" exC3 []) "p" = .error .malformedBody ∧
     enableScanFunc "p" ⟨.mk "<listcomp>" exC3 []⟩ = .error .malformedBody) :=
  ⟨⟨by decide, by decide, by decide⟩,
    claim_C3_malformed_body "<listcomp>" "p" exC3 [] (by decide) (by decide) (by decide)⟩

theorem locate_ok_spec (bc : List Entry) (fi : Nat) (b : Int) (fl : Nat)
    (h : locate bc = .ok (fi, b, fl)) :
    firstIdxWhere (fun e => entryName e == some "FOR_ITER") bc = some fi ∧
    b = (fi : Int) - 1 := by
  unfold locate at h
  cases hfi : firstIdxWhere (fun e => entryName e == some "FOR_ITER") bc with
  | none => rw [hfi] at h; exact absurd h (by simp)
  | some k =>
    rw [hfi] at h
    simp only [Except.ok.injEq, Prod.mk.injEq] at h
    obtain ⟨h1, h2, -⟩ := h
    subst h1
    exact ⟨rfl, h2.symm⟩

theorem emissionFor_cases (coName : String) (em : List Entry)
    (h : emissionFor coName = some em) :
    (coName = "<listcomp>" ∧ em = [Entry.instr "LIST_APPEND" (Arg.num 2)]) ∨
    (coName = "<setcomp>" ∧ em = [Entry.instr "SET_ADD" (Arg.num 2)]) ∨
    (coName = "<genexpr>" ∧
      em = [Entry.instr "YIELD_VALUE" Arg.noArg, Entry.instr "POP_TOP" Arg.noArg]) := by
  unfold emissionFor at h
  split_ifs at h with h1 h2 h3
  · exact Or.inl ⟨h1, by simpa using h.symm⟩
  · exact Or.inr (Or.inl ⟨h2, by simpa using h.symm⟩)
  · exact Or.inr (Or.inr ⟨h3, by simpa using h.symm⟩)

/-- C6 (code bug): on the compiled body of `[x for x in iterable if x]`,
whose conditional jump at index 6 targets the loop-start label (label id 0,
the entry at index 2 = `for_idx - 1`), the locator nevertheless reports
`filter_last_idx = 3` — the `FOR_ITER` index — instead of 6 as the
spec's contract requires.  The search on line 66 compares the jump's
`Label` operand with the *integer* `begin_label_idx` via `==`, which is
always false in Python, so the `except StopIteration` fallback of line 68
always fires and the filter chain is never found. -/
theorem claim_C6_locator_filter_bug :
    locate exC6 = .ok (3, 2, 3) ∧
    exC6.getD 2 (Entry.label 99) = Entry.label 0 ∧
    isCondJumpE (exC6.getD 6 (Entry.label 99)) = true ∧
    argOf (exC6.getD 6 (Entry.label 99)) = Arg.label 0 ∧
    (3 : Nat) ≠ 6 := by
  refine ⟨by decide, by decide, by decide, by decide, by decide⟩

/-- C5 (counterexample): on the compiled body of `[p + x for x in
iterable]`, the rewrite places the epilogue pair `DUP_TOP; STORE_FAST p` at
indices 12-13, immediately BEFORE the loop's `LIST_APPEND` (index 14) — the
value is duplicated and stored before the emission consumes it.  The output
prescribed by the claim ("inserted immediately after the per-iteration
emission instruction"), `exC5claimOut`, differs from the actual output. -/
theorem claim_C5_epilogue_after_counterexample :
    enableScanSingleInstrs "<listcomp>" "p" exC5 = .ok exC5out ∧
    exC5out.getD 12 (Entry.label 99) = Entry.instr "DUP_TOP" Arg.noArg ∧
    exC5out.getD 13 (Entry.label 99) = Entry.instr "STORE_FAST" (Arg.name "p") ∧
    exC5out.getD 14 (Entry.label 99) = Entry.instr "LIST_APPEND" (Arg.num 2) ∧
    exC5out ≠ exC5claimOut := by
  refine ⟨by decide, by decide, by decide, by decide, by decide⟩

/-- C5 (amended): the epilogue — a duplicate of the value about to be
emitted followed by a store into the sentinel's local slot — is inserted
immediately BEFORE the per-iteration emission instruction, located as the
last occurrence of any of the three native-emission operations in the
post-prologue instruction model. -/
theorem claim_C5_amended_epilogue_before (coName nm : String)
    (instrs out : List Entry) (forIdx : Nat) (b : Int) (fl : Nat) (em : List Entry)
    (hloc : locate (rewriteLoads nm instrs) = .ok (forIdx, b, fl))
    (hem : emissionFor coName = some em)
    (hrun : enableScanSingleInstrs coName nm instrs = .ok out) :
    ∃ bc2 j,
      bc2 = pyInsert (rewriteLoads nm instrs) b
        (((rewriteLoads nm instrs).take (fl + 1)).drop forIdx ++
          (Entry.instr "DUP_TOP" Arg.noArg :: Entry.instr "STORE_FAST" (Arg.name nm) :: em)) ∧
      lastIdxWhere isEmissionE bc2 = some j ∧
      isEmissionE (bc2.getD j (Entry.label 0)) = true ∧
      (∀ (i : Nat) (d : Entry), i < bc2.length → isEmissionE (bc2.getD i d) = true → i ≤ j) ∧
      out = bc2.take j ++
        [Entry.instr "DUP_TOP" Arg.noArg, Entry.instr "STORE_FAST" (Arg.name nm)] ++
        bc2.drop j := by
  simp only [enableScanSingleInstrs, hloc, hem] at hrun
  cases hlast : lastIdxWhere isEmissionE
      (pyInsert (rewriteLoads nm instrs) b
        (((rewriteLoads nm instrs).take (fl + 1)).drop forIdx ++
          (Entry.instr "DUP_TOP" Arg.noArg :: Entry.instr "STORE_FAST" (Arg.name nm) :: em)))
      with
  | none => rw [hlast] at hrun; exact absurd hrun (by simp)
  | some j =>
    rw [hlast] at hrun
    simp only [Except.ok.injEq] at hrun
    exact ⟨_, j, rfl, hlast, lastIdxWhere_getD _ _ _ _ hlast,
      fun i d hi hp => lastIdxWhere_maximal _ _ _ hlast i d hi hp, hrun.symm⟩

/-- C4: the prologue is inserted immediately before the loop-start label
(position `for_idx - 1`) and consists of a verbatim copy of the entries
`[fetch-next .. filter-chain-end]`, then a duplicate of the top-of-stack
value, a store into the sentinel's local slot, and the construct's
kind-specific emission (append for `<listcomp>`, add for `<setcomp>`,
yield-then-discard for `<genexpr>`).  Under the straight-line stack
semantics, running the inserted `DUP_TOP; STORE_FAST; emission` block from
a stack holding the freshly fetched value `x` emits exactly `[x]` and binds
the sentinel to `x` — the first emitted value equals the first fetched
value and the accumulator holds it entering the main loop. -/
theorem claim_C4_prologue_seeds_first_value (coName nm : String)
    (instrs out : List Entry) (forIdx : Nat) (b : Int) (fl : Nat) (em : List Entry)
    (hloc : locate (rewriteLoads nm instrs) = .ok (forIdx, b, fl))
    (hem : emissionFor coName = some em)
    (hpos : 0 < forIdx)
    (hrun : enableScanSingleInstrs coName nm instrs = .ok out) :
    (coName = "<listcomp>" → em = [Entry.instr "LIST_APPEND" (Arg.num 2)]) ∧
    (coName = "<setcomp>" → em = [Entry.instr "SET_ADD" (Arg.num 2)]) ∧
    (coName = "<genexpr>" →
      em = [Entry.instr "YIELD_VALUE" Arg.noArg, Entry.instr "POP_TOP" Arg.noArg]) ∧
    (∀ (V : Type) (noneV x : V) (tl : List V) (l0 : List (String × V)),
      runStraight noneV
        (Entry.instr "DUP_TOP" Arg.noArg :: Entry.instr "STORE_FAST" (Arg.name nm) :: em)
        ⟨x :: tl, l0, []⟩ = some ⟨tl, (nm, x) :: l0, [x]⟩) ∧
    (∃ j, lastIdxWhere isEmissionE
        ((rewriteLoads nm instrs).take (forIdx - 1) ++
          (((rewriteLoads nm instrs).take (fl + 1)).drop forIdx ++
            (Entry.instr "DUP_TOP" Arg.noArg :: Entry.instr "STORE_FAST" (Arg.name nm) :: em)) ++
          (rewriteLoads nm instrs).drop (forIdx - 1)) = some j ∧
      out = ((rewriteLoads nm instrs).take (forIdx - 1) ++
          (((rewriteLoads nm instrs).take (fl + 1)).drop forIdx ++
            (Entry.instr "DUP_TOP" Arg.noArg :: Entry.instr "STORE_FAST" (Arg.name nm) :: em)) ++
          (rewriteLoads nm instrs).drop (forIdx - 1)).take j ++
        [Entry.instr "DUP_TOP" Arg.noArg, Entry.instr "STORE_FAST" (Arg.name nm)] ++
        ((rewriteLoads nm instrs).take (forIdx - 1) ++
          (((rewriteLoads nm instrs).take (fl + 1)).drop forIdx ++
            (Entry.instr "DUP_TOP" Arg.noArg :: Entry.instr "STORE_FAST" (Arg.name nm) :: em)) ++
          (rewriteLoads nm instrs).drop (forIdx - 1)).drop j) := by
  obtain ⟨hfi, hb⟩ := locate_ok_spec _ _ _ _ hloc
  subst hb
  have hlt := firstIdxWhere_some_lt _ _ _ hfi
  refine ⟨?_, ?_, ?_, ?_, ?_⟩
  · intro hc
    rw [hc] at hem
    simp [emissionFor] at hem
    exact hem.symm
  · intro hc
    rw [hc] at hem
    simp [emissionFor] at hem
    exact hem.symm
  · intro hc
    rw [hc] at hem
    simp [emissionFor] at hem
    exact hem.symm
  · intro V noneV x tl l0
    rcases emissionFor_cases coName em hem with ⟨-, he⟩ | ⟨-, he⟩ | ⟨-, he⟩ <;>
      subst he <;> rfl
  · simp only [enableScanSingleInstrs, hloc, hem] at hrun
    have h0 : (0 : Int) ≤ (forIdx : Int) - 1 := by omega
    have htn : ((forIdx : Int) - 1).toNat = forIdx - 1 := by omega
    have hle : ((forIdx : Int) - 1).toNat ≤ (rewriteLoads nm instrs).length := by omega
    have hpi : ∀ xs : List Entry,
        pyInsert (rewriteLoads nm instrs) ((forIdx : Int) - 1) xs =
          (rewriteLoads nm instrs).take (forIdx - 1) ++ xs ++
            (rewriteLoads nm instrs).drop (forIdx - 1) := fun xs => by
      rw [pyInsert_of_nonneg _ _ _ h0 ?hle2, htn]
      case hle2 => exact hle
    rw [hpi] at hrun
    cases hlast : lastIdxWhere isEmissionE
        ((rewriteLoads nm instrs).take (forIdx - 1) ++
          (((rewriteLoads nm instrs).take (fl + 1)).drop forIdx ++
            (Entry.instr "DUP_TOP" Arg.noArg :: Entry.instr "STORE_FAST" (Arg.name nm) :: em)) ++
          (rewriteLoads nm instrs).drop (forIdx - 1)) with
    | none => rw [hlast] at hrun; exact absurd hrun (by simp)
    | some j =>
      rw [hlast] at hrun
      simp only [Except.ok.injEq] at hrun
      exact ⟨j, rfl, hrun.symm⟩

theorem claim_C5_amended_epilogue_before_witness :
    (locate (rewriteLoads "p" exC5) = .ok (3, 2, 3) ∧
     emissionFor "<listcomp>" = some [Entry.instr "LIST_APPEND" (Arg.num 2)] ∧
     enableScanSingleInstrs "<listcomp>" "p" exC5 = .ok exC5out) ∧
    (∃ bc2 j,
      bc2 = pyInsert (rewriteLoads "p" exC5) 2
        (((rewriteLoads "p" exC5).take (3 + 1)).drop 3 ++
          (Entry.instr "DUP_TOP" Arg.noArg :: Entry.instr "STORE_FAST" (Arg.name "p") ::
            [Entry.instr "LIST_APPEND" (Arg.num 2)])) ∧
      lastIdxWhere isEmissionE bc2 = some j ∧
      isEmissionE (bc2.getD j (Entry.label 0)) = true ∧
      (∀ (i : Nat) (d : Entry), i < bc2.length → isEmissionE (bc2.getD i d) = true → i ≤ j) ∧
      exC5out = bc2.take j ++
        [Entry.instr "DUP_TOP" Arg.noArg, Entry.instr "STORE_FAST" (Arg.name "p")] ++
        bc2.drop j) :=
  ⟨⟨by decide, by decide, by decide⟩,
    claim_C5_amended_epilogue_before "<listcomp>" "p" exC5 exC5out 3 2 3
      [Entry.instr "LIST_APPEND" (Arg.num 2)] (by decide) (by decide) (by decide)⟩

theorem claim_C4_prologue_seeds_first_value_witness :
    (locate (rewriteLoads "p" exC4) = .ok (1, 0, 1) ∧
     emissionFor "<listcomp>" = some [Entry.instr "LIST_APPEND" (Arg.num 2)] ∧
     0 < 1 ∧
     enableScanSingleInstrs "<listcomp>" "p" exC4 = .ok exC4out) ∧
    (("<listcomp>" = "<listcomp>" →
        [Entry.instr "LIST_APPEND" (Arg.num 2)] = [Entry.instr "LIST_APPEND" (Arg.num 2)]) ∧
     ("<listcomp>" = "<setcomp>" →
        [Entry.instr "LIST_APPEND" (Arg.num 2)] = [Entry.instr "SET_ADD" (Arg.num 2)]) ∧
     ("<listcomp>" = "<genexpr>" →
        [Entry.instr "LIST_APPEND" (Arg.num 2)] =
          [Entry.instr "YIELD_VALUE" Arg.noArg, Entry.instr "POP_TOP" Arg.noArg]) ∧
     (∀ (V : Type) (noneV x : V) (tl : List V) (l0 : List (String × V)),
       runStraight noneV
         (Entry.instr "DUP_TOP" Arg.noArg :: Entry.instr "STORE_FAST" (Arg.name "p") ::
           [Entry.instr "LIST_APPEND" (Arg.num 2)])
         ⟨x :: tl, l0, []⟩ = some ⟨tl, ("p", x) :: l0, [x]⟩) ∧
     (∃ j, lastIdxWhere isEmissionE
         ((rewriteLoads "p" exC4).take (1 - 1) ++
           (((rewriteLoads "p" exC4).take (1 + 1)).drop 1 ++
             (Entry.instr "DUP_TOP" Arg.noArg :: Entry.instr "STORE_FAST" (Arg.name "p") ::
               [Entry.instr "LIST_APPEND" (Arg.num 2)])) ++
           (rewriteLoads "p" exC4).drop (1 - 1)) = some j ∧
       exC4out = ((rewriteLoads "p" exC4).take (1 - 1) ++
           (((rewriteLoads "p" exC4).take (1 + 1)).drop 1 ++
             (Entry.instr "DUP_TOP" Arg.noArg :: Entry.instr "STORE_FAST" (Arg.name "p") ::
               [Entry.instr "LIST_APPEND" (Arg.num 2)])) ++
           (rewriteLoads "p" exC4).drop (1 - 1)).take j ++
         [Entry.instr "DUP_TOP" Arg.noArg, Entry.instr "STORE_FAST" (Arg.name "p")] ++
         ((rewriteLoads "p" exC4).take (1 - 1) ++
           (((rewriteLoads "p" exC4).take (1 + 1)).drop 1 ++
             (Entry.instr "DUP_TOP" Arg.noArg :: Entry.instr "STORE_FAST" (Arg.name "p") ::
               [Entry.instr "LIST_APPEND" (Arg.num 2)])) ++
           (rewriteLoads "p" exC4).drop (1 - 1)).drop j)) :=
  ⟨⟨by decide, by decide, by decide, by decide⟩,
    claim_C4_prologue_seeds_first_value "<listcomp>" "p" exC4 exC4out 1 0 1
      [Entry.instr "LIST_APPEND" (Arg.num 2)] (by decide) (by decide) (by decide) (by decide)⟩

/-! ### The driver is a no-op on units that never mention the sentinel -/

mutual
theorem mentions_false_code : ∀ (c : Code) (nm : String),
    mentionsCode c nm = false → enableScanCode c nm = .ok c
  | .mk coName instrs consts, nm, h => by
    simp only [mentionsCode, Bool.or_eq_false_iff] at h
    obtain ⟨h1, h2⟩ := h
    have hnot : ¬ nm ∈ namesOf instrs := by simpa using h1
    simp only [enableScanCode]
    rw [if_neg (fun hc => hnot hc.1), mentions_false_konsts consts nm h2]

theorem mentions_false_konsts : ∀ (ks : List Konst) (nm : String),
    mentionsKonsts ks nm = false → enableScanKonsts ks nm = .ok ks
  | [], _, _ => rfl
  | k :: ks, nm, h => by
    simp only [mentionsKonsts, Bool.or_eq_false_iff] at h
    obtain ⟨h1, h2⟩ := h
    simp only [enableScanKonsts]
    rw [mentions_false_konst k nm h1, mentions_false_konsts ks nm h2]

theorem mentions_false_konst : ∀ (k : Konst) (nm : String),
    mentionsKonst k nm = false → enableScanKonst k nm = .ok k
  | .lit v, _, _ => rfl
  | .code c, nm, h => by
    simp only [mentionsKonst] at h
    simp only [enableScanKonst]
    rw [mentions_false_code c nm h]
end

/-- C7: when the sentinel name is referenced nowhere in a callable's
compiled body (nested code units included), applying the transformation is
a no-op: the rebuilt callable's code — and the driver's result on the code
unit itself — is structurally equal to the original. -/
theorem claim_C7_absent_sentinel_noop (f : Func) (nm : String)
    (h : mentionsCode f.code nm = false) :
    enableScanFunc nm f = .ok f ∧ enableScanCode f.code nm = .ok f.code := by
  have hc := mentions_false_code f.code nm h
  refine ⟨?_, hc⟩
  unfold enableScanFunc
  rw [hc]

theorem claim_C7_absent_sentinel_noop_witness :
    mentionsCode exC7func.code "p" = false ∧
    (enableScanFunc "p" exC7func = .ok exC7func ∧
     enableScanCode exC7func.code "p" = .ok exC7func.code) :=
  ⟨by decide, claim_C7_absent_sentinel_noop exC7func "p" (by decide)⟩

/-! ### Where entries of a rewritten unit come from -/

theorem mem_pyInsert (l : List α) (b : Int) (xs : List α) (x : α)
    (hx : x ∈ pyInsert l b xs) : x ∈ l ∨ x ∈ xs := by
  unfold pyInsert at hx
  rcases List.mem_append.1 hx with h1 | h2
  · rcases List.mem_append.1 h1 with h3 | h4
    · exact Or.inl (List.take_subset _ _ h3)
    · exact Or.inr h4
  · exact Or.inl (List.drop_subset _ _ h2)

theorem mem_pyInsert_of_mem (l : List α) (b : Int) (xs : List α) (x : α)
    (hx : x ∈ xs) : x ∈ pyInsert l b xs := by
  unfold pyInsert
  exact List.mem_append.2 (Or.inl (List.mem_append.2 (Or.inr hx)))

/-- Every entry of the output of the single-unit rewrite is either an entry
of the (load-rewritten) input or one of the spliced-in instructions. -/
theorem singleInstrs_mem (coName nm : String) (instrs out : List Entry)
    (hrun : enableScanSingleInstrs coName nm instrs = .ok out) :
    ∀ x ∈ out, x ∈ rewriteLoads nm instrs ∨ x ∈ spliceEntries nm := by
  simp only [enableScanSingleInstrs] at hrun
  split at hrun
  · exact absurd hrun (by simp)
  · rename_i forIdx b fl heqloc
    split at hrun
    · exact absurd hrun (by simp)
    · rename_i em heqem
      split at hrun
      · exact absurd hrun (by simp)
      · rename_i j heqlast
        simp only [Except.ok.injEq] at hrun
        subst hrun
        intro x hx
        rcases List.mem_append.1 hx with h1 | h2
        · rcases List.mem_append.1 h1 with ha | hb
          · -- from bc2.take j
            have hbc2 := List.take_subset _ _ ha
            rcases mem_pyInsert _ _ _ _ hbc2 with hl | hins
            · exact Or.inl hl
            · rcases List.mem_append.1 hins with hseg | hhead
              · exact Or.inl (List.take_subset _ _ (List.drop_subset _ _ hseg))
              · rcases List.mem_cons.1 hhead with rfl | hhead2
                · exact Or.inr (by simp [spliceEntries])
                · rcases List.mem_cons.1 hhead2 with rfl | hem
                  · exact Or.inr (by simp [spliceEntries])
                  · rcases emissionFor_cases coName em heqem with ⟨-, he⟩ | ⟨-, he⟩ | ⟨-, he⟩ <;>
                      subst he <;> refine Or.inr ?_ <;> simp [spliceEntries] at hem ⊢ <;>
                      simp [hem]
          · -- the epilogue pair
            rcases List.mem_cons.1 hb with rfl | hb2
            · exact Or.inr (by simp [spliceEntries])
            · rcases List.mem_cons.1 hb2 with rfl | hb3
              · exact Or.inr (by simp [spliceEntries])
              · exact absurd hb3 (List.not_mem_nil x)
        · -- from bc2.drop j
          have hbc2 := List.drop_subset _ _ h2
          rcases mem_pyInsert _ _ _ _ hbc2 with hl | hins
          · exact Or.inl hl
          · rcases List.mem_append.1 hins with hseg | hhead
            · exact Or.inl (List.take_subset _ _ (List.drop_subset _ _ hseg))
            · rcases List.mem_cons.1 hhead with rfl | hhead2
              · exact Or.inr (by simp [spliceEntries])
              · rcases List.mem_cons.1 hhead2 with rfl | hem
                · exact Or.inr (by simp [spliceEntries])
                · rcases emissionFor_cases coName em heqem with ⟨-, he⟩ | ⟨-, he⟩ | ⟨-, he⟩ <;>
                    subst he <;> refine Or.inr ?_ <;> simp [spliceEntries] at hem ⊢ <;>
                    simp [hem]

theorem spliceEntries_nameArg (nm : String) (e : Entry) (he : e ∈ spliceEntries nm) :
    nameArgOf e = Option.none := by
  simp only [spliceEntries, List.mem_cons, List.not_mem_nil, or_false] at he
  rcases he with rfl | rfl | rfl | rfl | rfl | rfl <;> simp [nameArgOf, nameTableOps]

theorem rewriteLoads_nameArg (nm : String) : ∀ l : List Entry,
    onlyGlobalRefs l nm = true → ∀ e ∈ rewriteLoads nm l, ¬ nameArgOf e = some nm
  | [], _, e, he => absurd he (by simp [rewriteLoads])
  | e0 :: l, hg, e, he => by
    rw [onlyGlobalRefs, List.all_cons, Bool.and_eq_true] at hg
    obtain ⟨hg0, hgl⟩ := hg
    rw [rewriteLoads, List.map_cons] at he
    rcases List.mem_cons.1 he with rfl | hmem
    · cases e0 with
      | label l' => simp [nameArgOf]
      | instr op a =>
        show ¬ nameArgOf
          (if (op == "LOAD_GLOBAL" && pyEqArgStr a nm) = true
           then Entry.instr "LOAD_FAST" a else Entry.instr op a) = some nm
        by_cases hc : (op == "LOAD_GLOBAL" && pyEqArgStr a nm) = true
        · simp only [hc, if_true]
          cases a <;> simp [nameArgOf, nameTableOps]
        · rw [if_neg hc]
          intro hna
          cases a with
          | name s =>
            have hred : nameArgOf (Entry.instr op (Arg.name s)) =
                if op ∈ nameTableOps then some s else Option.none := rfl
            rw [hred] at hna
            by_cases hop : op ∈ nameTableOps
            · rw [if_pos hop] at hna
              have hsnm : s = nm := by simpa using hna
              subst hsnm
              have hg0r : (if (s == s && decide (op ∈ nameTableOps)) = true
                  then op == "LOAD_GLOBAL" else true) = true := hg0
              rw [if_pos (by simp [hop])] at hg0r
              have hopg : op = "LOAD_GLOBAL" := by simpa using hg0r
              subst hopg
              exact hc (by simp [pyEqArgStr])
            · rw [if_neg hop] at hna
              exact Option.noConfusion hna
          | noArg => simp [nameArgOf] at hna
          | num n => simp [nameArgOf] at hna
          | label l2 => simp [nameArgOf] at hna
    · exact rewriteLoads_nameArg nm l hgl e hmem

theorem konsts_all_lit (nm : String) : ∀ ks : List Konst,
    ks.all isLitKonst = true → enableScanKonsts ks nm = .ok ks
  | [], _ => rfl
  | k :: ks, h => by
    rw [List.all_cons, Bool.and_eq_true] at h
    obtain ⟨h1, h2⟩ := h
    cases k with
    | lit v =>
      simp only [enableScanKonsts, enableScanKonst]
      rw [konsts_all_lit nm ks h2]
    | code c => exact absurd h1 (by simp [isLitKonst])

/-- C8 (amended): for a construct whose only name-table references to the
sentinel are enclosing-scope loads (`LOAD_GLOBAL`) — in particular every
construct that merely reads the previous value — the sentinel no longer
appears in the rewritten unit's referenced-name pool, so a second pass of
the driver leaves the rewritten unit unchanged. -/
theorem claim_C8_amended_second_pass_noop (coName nm : String)
    (instrs out : List Entry) (consts : List Konst)
    (hg : onlyGlobalRefs instrs nm = true)
    (hlit : consts.all isLitKonst = true)
    (hrun : enableScanSingleInstrs coName nm instrs = .ok out) :
    ¬ nm ∈ namesOf out ∧
    enableScanCode (.mk coName out consts) nm = .ok (.mk coName out consts) := by
  have hmem := singleInstrs_mem coName nm instrs out hrun
  have hnot : ¬ nm ∈ namesOf out := by
    intro hin
    rw [namesOf, List.mem_filterMap] at hin
    obtain ⟨e, he, hna⟩ := hin
    rcases hmem e he with h1 | h2
    · exact rewriteLoads_nameArg nm instrs hg e h1 hna
    · rw [spliceEntries_nameArg nm e h2] at hna
      exact Option.noConfusion hna
  refine ⟨hnot, ?_⟩
  simp only [enableScanCode]
  rw [if_neg (fun hc => hnot hc.1), konsts_all_lit nm consts hlit]

theorem claim_C8_amended_second_pass_noop_witness :
    (onlyGlobalRefs exC5 "p" = true ∧
     ([] : List Konst).all isLitKonst = true ∧
     enableScanSingleInstrs "<listcomp>" "p" exC5 = .ok exC5out) ∧
    (¬ "p" ∈ namesOf exC5out ∧
     enableScanCode (.mk "<listcomp>" exC5out []) "p" = .ok (.mk "<listcomp>" exC5out [])) :=
  ⟨⟨by decide, by decide, by decide⟩,
    claim_C8_amended_second_pass_noop "<listcomp>" "p" exC5 exC5out []
      (by decide) (by decide) (by decide)⟩

/-- C8 (counterexample): on the compiled body of `[x.p for x in iterable]`
the sentinel `p` is referenced as an attribute name.  The first pass does
rewrite the construct (its `co_names` contains `p`), but `LOAD_ATTR p`
survives the rewrite, so `p` is STILL among the rewritten construct's
referenced names, and a second pass with the same sentinel transforms the
construct again instead of leaving it unchanged — the recurrence is
double-applied. -/
theorem claim_C8_second_pass_counterexample :
    enableScanSingleInstrs "<listcomp>" "p" exC8 = .ok exC8out ∧
    "p" ∈ namesOf exC8out ∧
    enableScanSingleInstrs "<listcomp>" "p" exC8out ≠ .ok exC8out := by
  refine ⟨by decide, by decide, by decide⟩

/-! ### All reachable failures of the driver are `malformedBody` -/

theorem locate_error_eq (bc : List Entry) (e : RewriteError)
    (h : locate bc = .error e) : e = .malformedBody := by
  unfold locate at h
  cases hfi : firstIdxWhere (fun e => entryName e == some "FOR_ITER") bc with
  | none =>
    rw [hfi] at h
    simp only [Except.error.injEq] at h
    exact h.symm
  | some k =>
    rw [hfi] at h
    exact absurd h (by simp)

theorem emissionFor_ne_none (coName : String) (h : coName ∈ transformableKinds) :
    ¬ emissionFor coName = Option.none := by
  simp only [transformableKinds, List.mem_cons, List.not_mem_nil, or_false] at h
  rcases h with rfl | rfl | rfl <;> simp [emissionFor]

theorem singleInstrs_error_eq (coName nm : String) (instrs : List Entry)
    (e : RewriteError) (hkind : coName ∈ transformableKinds)
    (h : enableScanSingleInstrs coName nm instrs = .error e) : e = .malformedBody := by
  simp only [enableScanSingleInstrs] at h
  split at h
  · rename_i e1 heq
    have he1 : e1 = e := by simpa using h
    subst he1
    exact locate_error_eq _ _ heq
  · rename_i forIdx b fl heqloc
    split at h
    · rename_i heqem
      exact absurd heqem (emissionFor_ne_none coName hkind)
    · rename_i em heqem
      split at h
      · rename_i heqlast
        exfalso
        have hmemE : ∃ x ∈ em, isEmissionE x = true := by
          rcases emissionFor_cases coName em heqem with ⟨-, he⟩ | ⟨-, he⟩ | ⟨-, he⟩ <;>
            subst he
          · exact ⟨Entry.instr "LIST_APPEND" (Arg.num 2), by simp, by decide⟩
          · exact ⟨Entry.instr "SET_ADD" (Arg.num 2), by simp, by decide⟩
          · exact ⟨Entry.instr "YIELD_VALUE" Arg.noArg, by simp, by decide⟩
        obtain ⟨x, hxem, hxp⟩ := hmemE
        have hxbc2 := mem_pyInsert_of_mem (rewriteLoads nm instrs) b
          (((rewriteLoads nm instrs).take (fl + 1)).drop forIdx ++
            (Entry.instr "DUP_TOP" Arg.noArg :: Entry.instr "STORE_FAST" (Arg.name nm) :: em))
          x (List.mem_append.2 (Or.inr
            (List.mem_cons.2 (Or.inr (List.mem_cons.2 (Or.inr hxem))))))
        have hfalse := lastIdxWhere_eq_none _ _ heqlast x hxbc2
        rw [hfalse] at hxp
        exact absurd hxp (by simp)
      · rename_i j heqlast
        exact absurd h (by simp)

mutual
theorem enableScanCode_error_eq : ∀ (c : Code) (nm : String) (e : RewriteError),
    enableScanCode c nm = .error e → e = .malformedBody
  | .mk coName instrs consts, nm, e, h => by
    simp only [enableScanCode] at h
    split at h
    · rename_i e1 heq
      have he1 : e1 = e := by simpa using h
      subst he1
      by_cases hg : nm ∈ namesOf instrs ∧ coName ∈ transformableKinds
      · rw [if_pos hg] at heq
        exact singleInstrs_error_eq coName nm instrs e1 hg.2 heq
      · rw [if_neg hg] at heq
        exact absurd heq (by simp)
    · rename_i instrs2 heq
      split at h
      · rename_i e2 heq2
        have he2 : e2 = e := by simpa using h
        subst he2
        exact enableScanKonsts_error_eq consts nm e2 heq2
      · rename_i consts2 heq2
        exact absurd h (by simp)

theorem enableScanKonsts_error_eq : ∀ (ks : List Konst) (nm : String) (e : RewriteError),
    enableScanKonsts ks nm = .error e → e = .malformedBody
  | [], _, _, h => by simp [enableScanKonsts] at h
  | k :: ks, nm, e, h => by
    simp only [enableScanKonsts] at h
    split at h
    · rename_i e1 heq
      have he1 : e1 = e := by simpa using h
      subst he1
      exact enableScanKonst_error_eq k nm e1 heq
    · rename_i k2 heq
      split at h
      · rename_i e2 heq2
        have he2 : e2 = e := by simpa using h
        subst he2
        exact enableScanKonsts_error_eq ks nm e2 heq2
      · rename_i ks2 heq2
        exact absurd h (by simp)

theorem enableScanKonst_error_eq : ∀ (k : Konst) (nm : String) (e : RewriteError),
    enableScanKonst k nm = .error e → e = .malformedBody
  | .lit v, _, _, h => by simp [enableScanKonst] at h
  | .code c, nm, e, h => by
    simp only [enableScanKonst] at h
    split at h
    · rename_i e1 heq
      have he1 : e1 = e := by simpa using h
      subst he1
      exact enableScanCode_error_eq c nm e1 heq
    · rename_i c2 heq
      exact absurd h (by simp)
end

/-! ### The driver's top-down order is extensionally equal to bottom-up -/

mutual
theorem enableScanCodeBU_eq : ∀ (c : Code) (nm : String),
    enableScanCodeBU c nm = enableScanCode c nm
  | .mk coName instrs consts, nm => by
    simp only [enableScanCodeBU, enableScanCode]
    rw [enableScanKonstsBU_eq consts nm]
    cases hs : (if nm ∈ namesOf instrs ∧ coName ∈ transformableKinds
        then enableScanSingleInstrs coName nm instrs else .ok instrs) with
    | ok instrs2 =>
      cases hkv : enableScanKonsts consts nm with
      | ok consts2 => rfl
      | error e2 => rfl
    | error e1 =>
      cases hkv : enableScanKonsts consts nm with
      | ok consts2 => rfl
      | error e2 =>
        have h1 : e1 = RewriteError.malformedBody := by
          by_cases hg : nm ∈ namesOf instrs ∧ coName ∈ transformableKinds
          · rw [if_pos hg] at hs
            exact singleInstrs_error_eq coName nm instrs e1 hg.2 hs
          · rw [if_neg hg] at hs
            exact absurd hs (by simp)
        have h2 : e2 = RewriteError.malformedBody :=
          enableScanKonsts_error_eq consts nm e2 hkv
        rw [h1, h2]

theorem enableScanKonstsBU_eq : ∀ (ks : List Konst) (nm : String),
    enableScanKonstsBU ks nm = enableScanKonsts ks nm
  | [], _ => rfl
  | k :: ks, nm => by
    simp only [enableScanKonstsBU, enableScanKonsts]
    rw [enableScanKonstBU_eq k nm, enableScanKonstsBU_eq ks nm]

theorem enableScanKonstBU_eq : ∀ (k : Konst) (nm : String),
    enableScanKonstBU k nm = enableScanKonst k nm
  | .lit v, _ => rfl
  | .code c, nm => by
    simp only [enableScanKonstBU, enableScanKonst]
    rw [enableScanCodeBU_eq c nm]
end

/-- C9 (counterexample): on a generator expression with a nested list
comprehension, both referencing the sentinel `q`, the driver's single-unit
rewrites run in the order outer-unit-first, nested-unit-second — `traceCode`
records the order in which `_enable_scan` reaches its single-bytecode step
(lines 104-106 run before the constant-pool loop of lines 108-111) — and
not in the bottom-up (nested-first) order the claim describes. -/
theorem claim_C9_order_counterexample :
    traceCode exC9code "q" = ["<genexpr>", "<listcomp>"] ∧
    traceCode exC9code "q" ≠ ["<listcomp>", "<genexpr>"] :=
  ⟨by decide, by decide⟩

/-- C9 (amended): the driver rewrites the current unit first (when its kind
is transformable and its referenced names contain the sentinel) and only
then recursively transforms the nested code units of the constant pool —
top-down; because the per-unit rewrite leaves the constant pool untouched
and nested rewrites leave the parent's instructions untouched, the result
is extensionally the same as the bottom-up order the claim describes. -/
theorem claim_C9_amended_topdown_equivalent (c : Code) (nm : String) :
    enableScanCodeBU c nm = enableScanCode c nm :=
  enableScanCodeBU_eq c nm

end PyScanPrev
